import Mathlib

/-!
Shallow embedding of `src/inactive_bot.py` (Telegram inactive-member tracker).

Modelling conventions:
* Unix timestamps (Python `float` from `time.time()`) are modelled as `Int`
  (all claims are order-theoretic comparisons and equality with the `0.0`
  sentinel; no float rounding is involved).  Sub-second fractions are not
  modelled, so ISO timestamps carry whole seconds.
* The Python dict `bot_data["last_seen"] : dict[int, float]` is modelled as an
  association list with in-place update (`dictInsert`), which preserves the
  dict's key-uniqueness; the set `bot_data["groups"]` as a duplicate-free list
  (`setAdd`).
* Telegram API calls (`get_administrators`, `get_member`) are passed in as
  data: `Option (List TgUser)` (with `none` = the call raised, degraded to the
  empty admin set by the `except` clause) and `Nat → Option TgUser` (with
  `none` = the call raised, degraded to the `ID:<uid>` label).
* `time.time()` values are supplied as explicit `now` arguments.
* Python truthiness is modelled explicitly where the source relies on it
  (`if not user_id` is true for both `None` and `0`; `if not ts` for both
  `None` and `0.0`).
-/

/-- Chat types from `telegram.constants.ChatType`; the code only distinguishes
group/supergroup from everything else. -/
inductive ChatType where
  | privateChat
  | group
  | supergroup
  | channel
deriving DecidableEq

/-- The fields of `telegram.User` the program reads. -/
structure TgUser where
  id : Nat
  isBot : Bool
  username : Option String
  fullName : String
deriving DecidableEq

/-- The fields of `telegram.Chat` the program reads. -/
structure Chat where
  id : Int
  type : ChatType
deriving DecidableEq

/-- The persistent `bot_data` state: `last_seen` dict and `groups` set. -/
structure BotState where
  lastSeen : List (Nat × Int)
  groups : List Int
deriving DecidableEq

/-- The fresh state installed by `ensure_storage`: empty dict, empty set. -/
def initialState : BotState := ⟨[], []⟩

/-- Dictionary lookup, `last_seen.get(uid)` / `uid in last_seen`. -/
def lookupLS (ls : List (Nat × Int)) (uid : Nat) : Option Int :=
  match ls with
  | [] => none
  | p :: rest => if p.1 = uid then some p.2 else lookupLS rest uid

/-- Dictionary update `last_seen[uid] = v`: overwrite in place, append if new,
preserving key uniqueness and insertion order exactly like a Python dict. -/
def dictInsert (k : Nat) (v : Int) (ls : List (Nat × Int)) : List (Nat × Int) :=
  match ls with
  | [] => [(k, v)]
  | p :: rest => if p.1 = k then (k, v) :: rest else p :: dictInsert k v rest

/-- Set insertion `groups.add(chat_id)`: no-op when present. -/
def setAdd (x : Int) (l : List Int) : List Int :=
  if x ∈ l then l else l ++ [x]

/-- The keys of the `last_seen` dict (`last_seen.keys()`), in dict order. -/
def lsKeys (ls : List (Nat × Int)) : List Nat := ls.map (fun p => p.1)

/-- Source `touch_user`: `last_seen[user_id] = now_ts()`. -/
def touchL (uid : Nat) (now : Int) (st : BotState) : BotState :=
  { st with lastSeen := dictInsert uid now st.lastSeen }

/-- Left-pad a decimal rendering with zeros to width `w` (the behaviour of
the `%02d`-style fields of `strftime`/`isoformat`). -/
def padS (w : Nat) (s : String) : String :=
  String.mk (List.replicate (w - s.length) '0') ++ s

/-- Two-digit zero-padded field. -/
def pad2 (n : Nat) : String := padS 2 (toString n)

/-- Four-digit zero-padded year field. -/
def padI4 (y : Int) : String := padS 4 (toString y)

/-- Convert a day count since 1970-01-01 to (year, month, day), the standard
exact civil-from-days algorithm used by calendar libraries; mirrors what
`datetime.fromtimestamp(_, tz=timezone.utc)` computes for the date part. -/
def civilFromDays (z0 : Int) : Int × Nat × Nat :=
  let z := z0 + 719468
  let era : Int := z.fdiv 146097
  let doe : Nat := (z - era * 146097).toNat
  let yoe : Nat := (doe - doe / 1460 + doe / 36524 - doe / 146096) / 365
  let y : Int := (yoe : Int) + era * 400
  let doy : Nat := doe - (365 * yoe + yoe / 4 - yoe / 100)
  let mp : Nat := (5 * doy + 2) / 153
  let d : Nat := doy - (153 * mp + 2) / 5 + 1
  let m : Nat := if mp < 10 then mp + 3 else mp - 9
  (if m ≤ 2 then y + 1 else y, m, d)

/-- Assemble the six date-time fields around a date/time separator. -/
def dateFields (sep : String) (y : Int) (mo d hh mi ss : Nat) : String :=
  padI4 y ++ "-" ++ pad2 mo ++ "-" ++ pad2 d ++ sep ++
    pad2 hh ++ ":" ++ pad2 mi ++ ":" ++ pad2 ss

/-- Render a timestamp as `YYYY-MM-DD HH:MM:SS`, the body of the source's
`human_dt` format `"%Y-%m-%d %H:%M:%S %Z"` (the trailing zone abbreviation
comes from the host timezone database and only lengthens the string; it is
not modelled). -/
def dateTimeStr (t : Int) : String :=
  let days := t.fdiv 86400
  let sod : Nat := (t - days * 86400).toNat
  let c := civilFromDays days
  dateFields " " c.1 c.2.1 c.2.2 (sod / 3600) (sod % 3600 / 60) (sod % 60)

/-- Source `human_dt`: UTC timestamp shifted into the server's local zone
(`astimezone()`); the zone offset is the `tzOff` parameter. -/
def humanDt (tzOff : Int) (ts : Int) : String := dateTimeStr (ts + tzOff)

/-- Date-time body of Python's `datetime.isoformat()` in UTC. -/
def isoBody (t : Int) : String :=
  let days := t.fdiv 86400
  let sod : Nat := (t - days * 86400).toNat
  let c := civilFromDays days
  dateFields "T" c.1 c.2.1 c.2.2 (sod / 3600) (sod % 3600 / 60) (sod % 60)

/-- Source `datetime.fromtimestamp(ts, tz=timezone.utc).isoformat()`:
UTC ISO-8601 with the explicit `+00:00` offset. -/
def isoUtc (ts : Int) : String := isoBody ts ++ "+00:00"

/-- Source `fmt_user`: display-name rule, including Python truthiness of the
empty string for `user.username` and `(full_name or "").strip()`. -/
def fmtUser (u : TgUser) : String :=
  let name := u.fullName.trim
  match u.username with
  | some un =>
      if un ≠ "" then
        if name ≠ "" then name ++ " (@" ++ un ++ ")" else "@" ++ un
      else if name ≠ "" then name else "ID:" ++ toString u.id
  | none => if name ≠ "" then name else "ID:" ++ toString u.id

/-- Digit-string accumulator for `int(target)` on an all-digit string. -/
def digitsToNat (l : List Char) : Nat :=
  l.foldl (fun a c => a * 10 + (c.toNat - 48)) 0

/-- Python `str.isdigit()` on the ASCII range (Unicode digit classes beyond
ASCII are not modelled; no claim depends on them). Empty string is falsy. -/
def isDigitStr (s : String) : Bool :=
  !s.data.isEmpty && s.data.all Char.isDigit

/-- Whitespace characters stripped by Python `int()` before parsing. -/
def isPySpace (c : Char) : Bool :=
  c = ' ' || c = '\t' || c = '\n' || c = '\r' || c = '\x0b' || c = '\x0c'

/-- Strip leading and trailing whitespace from a character list. -/
def trimData (l : List Char) : List Char :=
  ((l.dropWhile isPySpace).reverse.dropWhile isPySpace).reverse

/-- Python `int(s)` on a command argument: strips surrounding whitespace,
accepts an optional sign followed by digits, raises `ValueError` (here:
`none`) otherwise. (Underscore digit grouping is not modelled.) -/
def pyInt? (s : String) : Option Int :=
  match trimData s.data with
  | [] => none
  | '+' :: rest =>
      if !rest.isEmpty && rest.all Char.isDigit then some (digitsToNat rest) else none
  | '-' :: rest =>
      if !rest.isEmpty && rest.all Char.isDigit then some (-(digitsToNat rest : Int)) else none
  | l => if l.all Char.isDigit then some (digitsToNat l) else none

/-- Python `s.lstrip("@")`. -/
def lstripAt (s : String) : String := String.mk (s.data.dropWhile (· = '@'))

/-- Chat-type guard used by `cmd_inactive` and `on_message`:
`chat.type in (ChatType.GROUP, ChatType.SUPERGROUP)`. -/
def isGroupType (t : ChatType) : Bool :=
  t = ChatType.group || t = ChatType.supergroup

-- -------------- cmd_inactive --------------

/-- Usage reply of `cmd_inactive`. -/
def usageInactive : String := "Usage: /inactive <days>, e.g. /inactive 30"

/-- Reply of `cmd_inactive` outside a group/supergroup. -/
def groupOnlyMsg : String := "Run this in a group/supergroup."

/-- Day-count parsing of `cmd_inactive`:
`days = int(args[0]) if args else 30`, `ValueError` as `none`. -/
def daysOf (args : List String) : Option Int :=
  match args with
  | [] => some 30
  | a :: _ => pyInt? a

/-- Admin-id set from the `get_administrators` call:
`{adm.user.id for adm in admins if not adm.user.is_bot}`, with a raised call
(`none`) degraded to the empty set by the `except` clause. -/
def adminIdsOf (res : Option (List TgUser)) : List Nat :=
  ((res.getD []).filter (fun u => !u.isBot)).map (fun u => u.id)

/-- Candidate ids of the inactivity query:
`sorted(set(last_seen.keys()) | admin_ids)` — the deduplicated union in
ascending numeric order. -/
def candidateIds (ls : List (Nat × Int)) (adminIds : List Nat) : List Nat :=
  List.insertionSort (fun a b => a ≤ b) (lsKeys ls ++ adminIds).dedup

/-- The value `ts = last_seen.get(uid, 0.0)`: sentinel 0 when absent. -/
def tsOf (ls : List (Nat × Int)) (uid : Nat) : Int :=
  (lookupLS ls uid).getD 0

/-- Ids reported inactive: candidates with `ts < cutoff`. -/
def inactiveIds (ls : List (Nat × Int)) (adminIds : List Nat) (cutoff : Int) : List Nat :=
  (candidateIds ls adminIds).filter (fun uid => decide (tsOf ls uid < cutoff))

/-- Label for a reported user: `fmt_user(cm.user)` when `get_member`
succeeds, the synthetic `ID:<uid>` when it raises. -/
def labelOf (memberLookup : Nat → Option TgUser) (uid : Nat) : String :=
  match memberLookup uid with
  | some u => fmtUser u
  | none => "ID:" ++ toString uid

/-- The rendering `seen_str = "never" if ts == 0 else human_dt(ts)`. -/
def seenStrOf (tzOff : Int) (ts : Int) : String :=
  if ts = 0 then "never" else humanDt tzOff ts

/-- One report line: `f"• {label} — last seen: {seen_str}"`. -/
def mkLine (label seenStr : String) : String :=
  "• " ++ label ++ " — last seen: " ++ seenStr

/-- External collaborators and ambient inputs of one `cmd_inactive` run. -/
structure InactiveCtx where
  now : Int
  tzOff : Int
  chat : Option Chat
  adminsResult : Option (List TgUser)
  memberLookup : Nat → Option TgUser

/-- The `inactive_lines` list built by the query loop. -/
def inactiveLines (ctx : InactiveCtx) (ls : List (Nat × Int)) (adminIds : List Nat)
    (cutoff : Int) : List String :=
  (inactiveIds ls adminIds cutoff).map
    (fun uid => mkLine (labelOf ctx.memberLookup uid) (seenStrOf ctx.tzOff (tsOf ls uid)))

/-- Reply when no one is inactive. -/
def noInactiveMsg (days : Int) : String :=
  "✅ No tracked members inactive for ≥ " ++ toString days ++ " days."

/-- Header line of the inactivity report. -/
def inactiveHeader (days : Int) : String :=
  "🚫 Inactive for ≥ " ++ toString days ++ " days (tracked users):"

/-- The chunk budget guarded by `total_len + len(line) + 1 > 3500`. -/
def chunkBudget : Nat := 3500

/-- The continuation marker placed at the head of every follow-up chunk. -/
def contMarker : String := "(cont’d)"

/-- Python `"\n".join(chunk)`. -/
def joinNL : List String → String
  | [] => ""
  | [a] => a
  | a :: rest => a ++ "\n" ++ joinNL rest

/-- The pagination loop of `cmd_inactive`, accumulating chunk lines and the
running length, flushing a joined chunk whenever the next line would push the
length over the budget, then restarting from the continuation marker; the
trailing `if chunk:` flush is the base case. -/
def paginateGo : List String → List String → Nat → List String → List String
  | [], chunk, _, out => if chunk = [] then out else out ++ [joinNL chunk]
  | line :: rest, chunk, total, out =>
      if total + line.length + 1 > chunkBudget then
        paginateGo rest [contMarker, line] (contMarker.length + line.length + 1)
          (out ++ [joinNL chunk])
      else
        paginateGo rest (chunk ++ [line]) (total + line.length + 1) out

/-- The full chunked report: started from `chunk = [header]`,
`total_len = len(header)`. -/
def paginate (header : String) (lines : List String) : List String :=
  paginateGo lines [header] header.length []

/-- Source `cmd_inactive`: returns the list of reply messages sent and the
resulting `bot_data` state, following the source's control flow: day-count
validation, chat-type check, group tracking, candidate filtering, report or
pagination. -/
def cmdInactive (ctx : InactiveCtx) (args : List String) (st : BotState) :
    List String × BotState :=
  match daysOf args with
  | none => ([usageInactive], st)
  | some days =>
    if days ≤ 0 then ([usageInactive], st)
    else
      match ctx.chat with
      | none => ([groupOnlyMsg], st)
      | some chat =>
        if isGroupType chat.type then
          let cutoff := ctx.now - days * 86400
          let st' : BotState := { st with groups := setAdd chat.id st.groups }
          let lines := inactiveLines ctx st.lastSeen (adminIdsOf ctx.adminsResult) cutoff
          if lines = [] then ([noInactiveMsg days], st')
          else (paginate (inactiveHeader days) lines, st')
        else ([groupOnlyMsg], st)

-- -------------- cmd_export --------------

/-- The CSV header row written first by `cmd_export`. -/
def csvHeader : String := "user_id,last_interaction_iso"

/-- One CSV data row: `writer.writerow([uid, datetime.fromtimestamp(ts,
tz=timezone.utc).isoformat()])`. -/
def csvRow (p : Nat × Int) : String := toString p.1 ++ "," ++ isoUtc p.2

/-- Source `cmd_export`: the header row followed by one row per entry of the
`last_seen` dict, in dict order, with no inactivity filtering. -/
def csvExport (st : BotState) : List String :=
  csvHeader :: st.lastSeen.map csvRow

-- -------------- cmd_lastseen --------------

/-- Usage reply of `cmd_lastseen`. -/
def lastseenUsage : String := "Usage: /lastseen @username or numeric user ID"

/-- Reply when the target could not be resolved (`if not user_id`). -/
def resolveFailMsg : String := "Couldn’t resolve that user in this chat (or not tracked yet)."

/-- Reply when the resolved user has no recorded activity (`if not ts`). -/
def noActivityMsg : String := "No activity recorded for that user yet."

/-- The username-resolution loop of `cmd_lastseen`: scan tracked user ids in
dict order, fetch each member (a raised `get_member` is skipped by
`continue`), and stop at the first whose username is truthy and matches
case-insensitively. -/
def resolveByUsername (memberLookup : Nat → Option TgUser) (ls : List (Nat × Int))
    (target : String) : Option Nat :=
  (lsKeys ls).find? (fun uid =>
    match memberLookup uid with
    | some u =>
        match u.username with
        | some un => decide (un ≠ "") && (un.toLower == target.toLower)
        | none => false
    | none => false)

/-- Source `cmd_lastseen`: returns the reply text. Python truthiness is kept:
`if not user_id` fires on both an unresolved target and the id 0; `if not ts`
fires on both a missing record and a stored 0.0. -/
def cmdLastseen (memberLookup : Nat → Option TgUser) (tzOff : Int)
    (args : List String) (st : BotState) : String :=
  match args with
  | [] => lastseenUsage
  | a :: _ =>
    let target := lstripAt a
    let uidOpt : Option Nat :=
      if isDigitStr target then some (digitsToNat target.data)
      else resolveByUsername memberLookup st.lastSeen target
    match uidOpt with
    | none => resolveFailMsg
    | some uid =>
      if uid = 0 then resolveFailMsg
      else
        match lookupLS st.lastSeen uid with
        | none => noActivityMsg
        | some ts =>
            if ts = 0 then noActivityMsg
            else "Last seen: " ++ humanDt tzOff ts

-- -------------- update handlers --------------

/-- The fields of a message update `on_message` reads: `effective_chat` and
`effective_message.from_user` (absent message or absent sender both appear
as `none`). -/
structure MsgEvent where
  chat : Option Chat
  fromUser : Option TgUser

/-- Source `on_message`: bail out unless the chat is a group/supergroup; then
track the group unconditionally, and touch the sender only when present and
not a bot. -/
def onMessage (ev : MsgEvent) (now : Int) (st : BotState) : BotState :=
  match ev.chat with
  | none => st
  | some chat =>
    if isGroupType chat.type then
      let st1 : BotState := { st with groups := setAdd chat.id st.groups }
      match ev.fromUser with
      | some u => if !u.isBot then touchL u.id now st1 else st1
      | none => st1
    else st

/-- The sender that `on_message` will touch, if any: present and human. -/
def msgSenderHuman (ev : MsgEvent) : Option TgUser :=
  match ev.fromUser with
  | some u => if u.isBot then none else some u
  | none => none

/-- Source `on_poll_answer`: touch the voter when present and human
(`pa` absent or `pa.user` absent both appear as `none`). -/
def onPollAnswer (user : Option TgUser) (now : Int) (st : BotState) : BotState :=
  match user with
  | some u => if !u.isBot then touchL u.id now st else st
  | none => st

/-- Source `on_chat_member`: track the chat, then touch the subject when it
is human and the new status is "member" or "administrator". The `if not cmu`
early return is the absence of this event. -/
def onChatMember (chatId : Int) (newUser : Option TgUser) (status : String)
    (now : Int) (st : BotState) : BotState :=
  let st1 : BotState := { st with groups := setAdd chatId st.groups }
  match newUser with
  | some u =>
      if !u.isBot && (status == "member" || status == "administrator") then
        touchL u.id now st1
      else st1
  | none => st1

/-- Source `on_reaction`: touch the reactor when the surface exposes it and
it is human (`mr` absent or `user` absent both appear as `none`). -/
def onReaction (user : Option TgUser) (now : Int) (st : BotState) : BotState :=
  match user with
  | some u => if !u.isBot then touchL u.id now st else st
  | none => st

/-- The state-mutating inbound events of the program (the remaining commands
only read the ledger). `cmd_inactive` is included because it mutates the
tracked-group set. -/
inductive Ev where
  | message (chat : Option Chat) (fromUser : Option TgUser)
  | pollAnswer (user : Option TgUser)
  | chatMember (chatId : Int) (newUser : Option TgUser) (status : String)
  | reaction (user : Option TgUser)
  | inactiveCmd (args : List String) (chat : Option Chat)
      (admins : Option (List TgUser)) (memberLookup : Nat → Option TgUser)

/-- Dispatch one timestamped event to its handler, as the framework does. -/
def stepEv (st : BotState) (te : Int × Ev) : BotState :=
  match te.2 with
  | Ev.message chat fu => onMessage ⟨chat, fu⟩ te.1 st
  | Ev.pollAnswer u => onPollAnswer u te.1 st
  | Ev.chatMember cid nu status => onChatMember cid nu status te.1 st
  | Ev.reaction u => onReaction u te.1 st
  | Ev.inactiveCmd args chat admins ml =>
      (cmdInactive ⟨te.1, 0, chat, admins, ml⟩ args st).2

/-- Run a timestamped event history from a state. -/
def applyEvents (st : BotState) (evs : List (Int × Ev)) : BotState :=
  evs.foldl stepEv st

/-- A bare touch history on the ledger (repeated `touch_user` calls). -/
def applyTouches (ls : List (Nat × Int)) (evs : List (Nat × Int)) : List (Nat × Int) :=
  evs.foldl (fun s e => dictInsert e.1 e.2 s) ls

/-- The timestamp of the most recent touch of `u` in a touch history (the
last pair with first component `u`, scanning from the end). -/
def lastTouch (evs : List (Nat × Int)) (u : Nat) : Option Int :=
  match evs with
  | [] => none
  | e :: rest =>
      match lastTouch rest u with
      | some t => some t
      | none => if e.1 = u then some e.2 else none

/-- Sum of line lengths plus one separator each, the quantity the running
`total_len` accumulates. -/
def sumLen : List String → Nat
  | [] => 0
  | l :: rest => l.length + 1 + sumLen rest

-- -------------- helper lemmas: dict and candidate set --------------

theorem lookup_dictInsert (k : Nat) (v : Int) (ls : List (Nat × Int)) (u : Nat) :
    lookupLS (dictInsert k v ls) u = if k = u then some v else lookupLS ls u := by
  induction ls with
  | nil =>
      by_cases h : k = u <;> simp [dictInsert, lookupLS, h]
  | cons p rest ih =>
      by_cases hp : p.1 = k
      · by_cases h : k = u
        · simp [dictInsert, hp, lookupLS, h]
        · have hpu : ¬ p.1 = u := fun q => h (hp ▸ q)
          simp [dictInsert, hp, lookupLS, h, hpu]
      · by_cases hpu : p.1 = u
        · have h : ¬ k = u := fun hku => hp (hpu ▸ hku ▸ rfl)
          have h' : ¬ u = k := fun q => h q.symm
          simp [dictInsert, hp, lookupLS, hpu, h, h']
        · simp [dictInsert, hp, lookupLS, hpu, ih]

theorem mem_candidateIds (ls : List (Nat × Int)) (adminIds : List Nat) (uid : Nat) :
    uid ∈ candidateIds ls adminIds ↔ uid ∈ lsKeys ls ∨ uid ∈ adminIds := by
  unfold candidateIds
  rw [(List.perm_insertionSort _ _).mem_iff, List.mem_dedup, List.mem_append]

theorem candidateIds_nodup (ls : List (Nat × Int)) (adminIds : List Nat) :
    (candidateIds ls adminIds).Nodup := by
  unfold candidateIds
  exact (List.perm_insertionSort _ _).nodup_iff.mpr (List.nodup_dedup _)

theorem candidateIds_sorted_lt (ls : List (Nat × Int)) (adminIds : List Nat) :
    List.Pairwise (· < ·) (candidateIds ls adminIds) := by
  have hle : List.Pairwise (fun a b : Nat => a ≤ b) (candidateIds ls adminIds) :=
    List.sorted_insertionSort _ _
  have hne : List.Pairwise (fun a b : Nat => a ≠ b) (candidateIds ls adminIds) :=
    candidateIds_nodup ls adminIds
  exact (hle.and hne).imp fun h => lt_of_le_of_ne h.1 h.2

theorem mem_inactiveIds (ls : List (Nat × Int)) (adminIds : List Nat) (cutoff : Int)
    (uid : Nat) :
    uid ∈ inactiveIds ls adminIds cutoff ↔
      uid ∈ candidateIds ls adminIds ∧ tsOf ls uid < cutoff := by
  unfold inactiveIds
  rw [List.mem_filter]
  simp

-- -------------- C1 --------------

/-- C1 (amended): when the cutoff timestamp `now − days·86400` is positive,
`find_inactive` includes a candidate iff its last-seen record is absent or
strictly earlier than the cutoff; every user whose record is within the
window is excluded; and no id appears twice in the result. -/
theorem find_inactive_filter_correct (ls : List (Nat × Int)) (adminIds : List Nat)
    (now days : Int) (hdays : 0 < days) (hcut : 0 < now - days * 86400) :
    (∀ uid, uid ∈ inactiveIds ls adminIds (now - days * 86400) ↔
        uid ∈ candidateIds ls adminIds ∧
          (lookupLS ls uid = none ∨
            ∃ t, lookupLS ls uid = some t ∧ t < now - days * 86400))
    ∧ (∀ uid t, lookupLS ls uid = some t → now - days * 86400 ≤ t →
        uid ∉ inactiveIds ls adminIds (now - days * 86400))
    ∧ (inactiveIds ls adminIds (now - days * 86400)).Nodup := by
  refine ⟨fun uid => ?_, fun uid t hl hge hmem => ?_, ?_⟩
  · rw [mem_inactiveIds]
    constructor
    · rintro ⟨hc, hts⟩
      refine ⟨hc, ?_⟩
      unfold tsOf at hts
      cases hl : lookupLS ls uid with
      | none => exact Or.inl rfl
      | some t => exact Or.inr ⟨t, rfl, by rw [hl] at hts; simpa using hts⟩
    · rintro ⟨hc, habs | ⟨t, hl, hlt⟩⟩
      · exact ⟨hc, by unfold tsOf; rw [habs]; simpa using hcut⟩
      · exact ⟨hc, by unfold tsOf; rw [hl]; simpa using hlt⟩
  · rw [mem_inactiveIds] at hmem
    have : tsOf ls uid < now - days * 86400 := hmem.2
    unfold tsOf at this
    rw [hl] at this
    simp at this
    omega
  · exact (candidateIds_nodup ls adminIds).filter _

/-- Witness for C1: with a 30-day cutoff at `now = 40` days after the epoch,
a user last seen at time 100 (older than the cutoff) is reported. -/
theorem find_inactive_filter_correct_witness :
    (0 : Int) < 30 ∧ (0 : Int) < 86400 * 40 - 30 * 86400 ∧
      1 ∈ inactiveIds [(1, 100)] [2] ((86400 * 40 : Int) - 30 * 86400) :=
  ⟨by decide, by decide,
    ((find_inactive_filter_correct [(1, 100)] [2] (86400 * 40) 30 (by decide)
        (by decide)).1 1).mpr
      ⟨by decide, Or.inr ⟨100, by decide, by decide⟩⟩⟩

/-- C1 counterexample: with a positive cutoff age so large that the cutoff
timestamp becomes negative (20500 days before `now` = 2025-10-12), a
candidate with no last-seen record is NOT included, because absence is the
sentinel 0.0 and `0.0 < cutoff` fails; the claim as stated requires it to be
included. -/
theorem find_inactive_never_excluded_cex :
    (0 : Int) < 20500 ∧
      lookupLS [] 7 = none ∧
      7 ∈ candidateIds [] [7] ∧
      7 ∉ inactiveIds [] [7] ((1760227200 : Int) - 20500 * 86400) := by
  decide

-- -------------- C2 --------------

/-- C2: the candidate set examined by `find_inactive` is exactly the union
of all touched user ids and the non-bot administrator ids returned for the
target chat; candidates (hence the report) are in strictly ascending id
order; and a non-admin user who never interacted never appears. -/
theorem find_inactive_candidates_exact (ls : List (Nat × Int)) (admins : List TgUser) :
    (∀ uid, uid ∈ candidateIds ls (adminIdsOf (some admins)) ↔
        uid ∈ lsKeys ls ∨ uid ∈ adminIdsOf (some admins))
    ∧ List.Pairwise (· < ·) (candidateIds ls (adminIdsOf (some admins)))
    ∧ (∀ cutoff, List.Pairwise (· < ·) (inactiveIds ls (adminIdsOf (some admins)) cutoff))
    ∧ (∀ uid cutoff, uid ∉ lsKeys ls → uid ∉ adminIdsOf (some admins) →
        uid ∉ inactiveIds ls (adminIdsOf (some admins)) cutoff) := by
  refine ⟨mem_candidateIds ls _, candidateIds_sorted_lt ls _, fun cutoff => ?_,
    fun uid cutoff h1 h2 hmem => ?_⟩
  · exact (candidateIds_sorted_lt ls _).sublist (List.filter_sublist _)
  · rw [mem_inactiveIds] at hmem
    rcases (mem_candidateIds ls _ uid).mp hmem.1 with h | h
    · exact h1 h
    · exact h2 h

/-- Witness for C2: a user id that was never touched and is not among the
non-bot admins is absent from the report. -/
theorem find_inactive_candidates_exact_witness :
    3 ∉ inactiveIds [(1, 5)] (adminIdsOf (some [⟨2, false, none, "A"⟩])) 100 :=
  (find_inactive_candidates_exact [(1, 5)] [⟨2, false, none, "A"⟩]).2.2.2 3 100
    (by decide) (by decide)

-- -------------- C3 --------------

/-- C3 (amended): an invalid `/inactive` argument — non-numeric or
non-positive — yields the usage reply and leaves the whole `bot_data` state
(last-seen mapping and tracked-group set) unchanged; a missing argument is
not an error and defaults to 30 days. -/
theorem inactive_usage_error (ctx : InactiveCtx) (args : List String) (st : BotState)
    (a : String) (ha : args.head? = some a)
    (hbad : pyInt? a = none ∨ ∃ d, pyInt? a = some d ∧ d ≤ 0) :
    cmdInactive ctx args st = ([usageInactive], st) := by
  cases args with
  | nil => simp at ha
  | cons b t =>
      have hab : b = a := by simpa using ha
      subst hab
      rcases hbad with hnone | ⟨d, hd, hle⟩
      · simp [cmdInactive, daysOf, hnone]
      · simp [cmdInactive, daysOf, hd, hle]

/-- Witness for C3: `/inactive abc` replies with the usage string and leaves
the state untouched. -/
theorem inactive_usage_error_witness :
    cmdInactive ⟨1760227200, 0, some ⟨-100, ChatType.group⟩, some [], fun _ => none⟩
        ["abc"] ⟨[(1, 5)], [(-7 : Int)]⟩ = ([usageInactive], ⟨[(1, 5)], [(-7 : Int)]⟩) :=
  inactive_usage_error _ ["abc"] _ "abc" rfl (Or.inl (by decide))

/-- C3 counterexample: `/inactive` with NO argument is not a usage error —
the day count defaults to 30, the command proceeds, and the invoking group
is added to the tracked-group set (the ledger state changes). -/
theorem inactive_missing_arg_cex :
    (cmdInactive ⟨1760227200, 0, some ⟨-100, ChatType.group⟩, some [], fun _ => none⟩
        [] ⟨[], []⟩).1 = [noInactiveMsg 30] ∧
    noInactiveMsg 30 ≠ usageInactive ∧
    (cmdInactive ⟨1760227200, 0, some ⟨-100, ChatType.group⟩, some [], fun _ => none⟩
        [] ⟨[], []⟩).2.groups = [(-100 : Int)] := by
  refine ⟨?_, by decide, ?_⟩ <;> rfl

-- -------------- C9 --------------

/-- Helper: `cmd_inactive` never modifies the last-seen mapping. -/
theorem cmdInactive_lastSeen_unchanged (ctx : InactiveCtx) (args : List String)
    (st : BotState) : (cmdInactive ctx args st).2.lastSeen = st.lastSeen := by
  unfold cmdInactive
  cases daysOf args with
  | none => rfl
  | some days =>
      by_cases hd : days ≤ 0
      · simp [hd]
      · simp only [if_neg hd]
        cases hchat : ctx.chat with
        | none => rfl
        | some chat =>
            by_cases hg : isGroupType chat.type = true
            · simp only [hg, if_true]
              split <;> rfl
            · simp only [if_neg hg]

/-- C9: a valid `/inactive <days>` run in a group-type chat is not a pure
read — it adds the invoking chat's id to the tracked-group set — while the
last-seen mapping is left unchanged. -/
theorem inactive_tracks_group (ctx : InactiveCtx) (args : List String) (st : BotState)
    (days : Int) (chat : Chat) (hdays : daysOf args = some days) (hpos : 0 < days)
    (hchat : ctx.chat = some chat) (hgt : isGroupType chat.type = true) :
    (cmdInactive ctx args st).2.groups = setAdd chat.id st.groups
    ∧ chat.id ∈ (cmdInactive ctx args st).2.groups
    ∧ (cmdInactive ctx args st).2.lastSeen = st.lastSeen := by
  have hstate : (cmdInactive ctx args st).2.groups = setAdd chat.id st.groups := by
    unfold cmdInactive
    rw [hdays]
    simp only [if_neg (by omega : ¬ days ≤ 0), hchat, hgt, if_true]
    split <;> rfl
  refine ⟨hstate, ?_, cmdInactive_lastSeen_unchanged ctx args st⟩
  rw [hstate]
  unfold setAdd
  by_cases hmem : chat.id ∈ st.groups
  · simpa [hmem] using hmem
  · simp [hmem]

/-- Witness for C9: running `/inactive` (default 30 days) in a fresh group
chat records that chat id in the tracked-group set and leaves the (empty)
last-seen mapping empty. -/
theorem inactive_tracks_group_witness :
    (cmdInactive ⟨1760227200, 0, some ⟨-42, ChatType.supergroup⟩, some [], fun _ => none⟩
        [] ⟨[(3, 9)], []⟩).2.groups = setAdd (-42) []
    ∧ (-42 : Int) ∈ (cmdInactive ⟨1760227200, 0, some ⟨-42, ChatType.supergroup⟩,
        some [], fun _ => none⟩ [] ⟨[(3, 9)], []⟩).2.groups
    ∧ (cmdInactive ⟨1760227200, 0, some ⟨-42, ChatType.supergroup⟩, some [],
        fun _ => none⟩ [] ⟨[(3, 9)], []⟩).2.lastSeen = [(3, 9)] :=
  inactive_tracks_group _ [] ⟨[(3, 9)], []⟩ 30 ⟨-42, ChatType.supergroup⟩
    rfl (by decide) rfl rfl

-- -------------- pagination helper lemmas --------------

theorem joinNL_cons_cons (a b : String) (l : List String) :
    joinNL (a :: b :: l) = a ++ "\n" ++ joinNL (b :: l) := rfl

theorem joinNL_head (a : String) (l : List String) : ∃ r, joinNL (a :: l) = a ++ r := by
  cases l with
  | nil => exact ⟨"", by simp [joinNL]⟩
  | cons b t =>
      exact ⟨"\n" ++ joinNL (b :: t), by rw [joinNL_cons_cons, String.append_assoc]⟩

theorem joinNL_pair_length (a b : String) :
    (joinNL [a, b]).length = a.length + 1 + b.length := by
  have h1 : ("\n" : String).length = 1 := rfl
  rw [joinNL_cons_cons]
  simp [joinNL, String.length_append, h1]

theorem joinNL_append_single (chunk : List String) (x : String) (h : chunk ≠ []) :
    (joinNL (chunk ++ [x])).length = (joinNL chunk).length + 1 + x.length := by
  induction chunk with
  | nil => simp at h
  | cons a rest ih =>
      cases rest with
      | nil =>
          show (joinNL [a, x]).length = (joinNL [a]).length + 1 + x.length
          rw [joinNL_pair_length]
          rfl
      | cons b t =>
          have h1 : ("\n" : String).length = 1 := rfl
          have hstep : joinNL ((a :: b :: t) ++ [x]) = a ++ "\n" ++ joinNL (b :: (t ++ [x])) := by
            rw [show ((a :: b :: t) ++ [x]) = a :: b :: (t ++ [x]) from rfl]
            exact joinNL_cons_cons a b (t ++ [x])
          rw [hstep, joinNL_cons_cons a b t]
          simp only [String.length_append, h1]
          have hih := ih (by simp)
          rw [show ((b :: t) ++ [x]) = b :: (t ++ [x]) from rfl] at hih
          omega

theorem joinNL_le_sumLen (l : List String) : (joinNL l).length ≤ sumLen l := by
  induction l with
  | nil => simp [joinNL, sumLen]
  | cons a rest ih =>
      cases rest with
      | nil =>
          show (joinNL [a]).length ≤ sumLen [a]
          simp [joinNL, sumLen]
      | cons b t =>
          have h1 : ("\n" : String).length = 1 := rfl
          rw [joinNL_cons_cons,
            show sumLen (a :: b :: t) = a.length + 1 + sumLen (b :: t) from rfl]
          simp only [String.length_append, h1]
          omega

theorem paginateGo_nil (chunk : List String) (total : Nat) (out : List String) :
    paginateGo [] chunk total out = if chunk = [] then out else out ++ [joinNL chunk] := rfl

theorem paginateGo_cons (line : String) (rest chunk : List String) (total : Nat)
    (out : List String) :
    paginateGo (line :: rest) chunk total out =
      if total + line.length + 1 > chunkBudget then
        paginateGo rest [contMarker, line] (contMarker.length + line.length + 1)
          (out ++ [joinNL chunk])
      else paginateGo rest (chunk ++ [line]) (total + line.length + 1) out := rfl

theorem paginateGo_length_le (lines : List String) :
    ∀ (chunk : List String) (total : Nat) (out : List String),
      (∀ c ∈ out, c.length ≤ chunkBudget) → chunk ≠ [] →
      total = (joinNL chunk).length → total ≤ chunkBudget →
      (∀ l ∈ lines, l.length + contMarker.length + 1 ≤ chunkBudget) →
      ∀ c ∈ paginateGo lines chunk total out, c.length ≤ chunkBudget := by
  induction lines with
  | nil =>
      intro chunk total out hout hchunk htot hbound _ c hc
      rw [paginateGo_nil, if_neg hchunk] at hc
      rcases List.mem_append.mp hc with h | h
      · exact hout c h
      · simp at h
        subst h
        rw [← htot]
        exact hbound
  | cons line rest ih =>
      intro chunk total out hout hchunk htot hbound hl c hc
      rw [paginateGo_cons] at hc
      by_cases hflush : total + line.length + 1 > chunkBudget
      · rw [if_pos hflush] at hc
        refine ih [contMarker, line] _ _ ?_ (by simp) ?_ ?_
          (fun l hl' => hl l (List.mem_cons_of_mem _ hl')) c hc
        · intro d hd
          rcases List.mem_append.mp hd with h | h
          · exact hout d h
          · simp at h
            subst h
            rw [← htot]
            exact hbound
        · rw [joinNL_pair_length]
          omega
        · have := hl line (List.mem_cons_self _ _)
          omega
      · rw [if_neg hflush] at hc
        refine ih (chunk ++ [line]) _ _ hout (by simp) ?_ (by omega)
          (fun l hl' => hl l (List.mem_cons_of_mem _ hl')) c hc
        rw [joinNL_append_single chunk line hchunk, ← htot]
        omega

theorem paginateGo_marker (lines : List String) :
    ∀ (chunk : List String) (total : Nat) (out : List String),
      chunk ≠ [] →
      (∀ c ∈ out.drop 1, ∃ r, c = contMarker ++ r) →
      (out ≠ [] → ∃ tl, chunk = contMarker :: tl) →
      ∀ c ∈ (paginateGo lines chunk total out).drop 1, ∃ r, c = contMarker ++ r := by
  induction lines with
  | nil =>
      intro chunk total out hchunk hout hhead c hc
      rw [paginateGo_nil, if_neg hchunk] at hc
      cases out with
      | nil => simp at hc
      | cons a t =>
          rw [show ((a :: t) ++ [joinNL chunk]) = a :: (t ++ [joinNL chunk]) from rfl] at hc
          simp only [List.drop_succ_cons, List.drop_zero] at hc
          rcases List.mem_append.mp hc with h | h
          · exact hout c (by simpa using h)
          · simp at h
            subst h
            obtain ⟨tl, htl⟩ := hhead (by simp)
            obtain ⟨r, hr⟩ := joinNL_head contMarker tl
            exact ⟨r, by rw [htl, hr]⟩
  | cons line rest ih =>
      intro chunk total out hchunk hout hhead c hc
      rw [paginateGo_cons] at hc
      by_cases hflush : total + line.length + 1 > chunkBudget
      · rw [if_pos hflush] at hc
        refine ih [contMarker, line] _ _ (by simp) ?_ (fun _ => ⟨[line], rfl⟩) c hc
        intro d hd
        cases out with
        | nil => simp at hd
        | cons a t =>
            rw [show ((a :: t) ++ [joinNL chunk]) = a :: (t ++ [joinNL chunk]) from rfl] at hd
            simp only [List.drop_succ_cons, List.drop_zero] at hd
            rcases List.mem_append.mp hd with h | h
            · exact hout d (by simpa using h)
            · simp at h
              subst h
              obtain ⟨tl, htl⟩ := hhead (by simp)
              obtain ⟨r, hr⟩ := joinNL_head contMarker tl
              exact ⟨r, by rw [htl, hr]⟩
      · rw [if_neg hflush] at hc
        refine ih (chunk ++ [line]) _ _ (by simp) hout ?_ c hc
        intro ho
        obtain ⟨tl, htl⟩ := hhead ho
        exact ⟨tl ++ [line], by rw [htl]; rfl⟩

theorem paginateGo_length_ge (lines : List String) :
    ∀ (chunk : List String) (total : Nat) (out : List String), chunk ≠ [] →
      out.length + 1 ≤ (paginateGo lines chunk total out).length := by
  induction lines with
  | nil =>
      intro chunk total out hchunk
      rw [paginateGo_nil, if_neg hchunk]
      simp
  | cons line rest ih =>
      intro chunk total out hchunk
      rw [paginateGo_cons]
      by_cases hflush : total + line.length + 1 > chunkBudget
      · rw [if_pos hflush]
        have := ih [contMarker, line] (contMarker.length + line.length + 1)
          (out ++ [joinNL chunk]) (by simp)
        simp only [List.length_append, List.length_cons, List.length_nil] at this
        omega
      · rw [if_neg hflush]
        exact ih (chunk ++ [line]) _ out (by simp)

theorem paginateGo_two (lines : List String) :
    ∀ (chunk : List String) (total : Nat) (out : List String), chunk ≠ [] →
      chunkBudget < total + sumLen lines → total ≤ chunkBudget →
      out.length + 2 ≤ (paginateGo lines chunk total out).length := by
  induction lines with
  | nil =>
      intro chunk total out _ hover hbound
      simp only [sumLen] at hover
      omega
  | cons line rest ih =>
      intro chunk total out hchunk hover hbound
      rw [paginateGo_cons]
      by_cases hflush : total + line.length + 1 > chunkBudget
      · rw [if_pos hflush]
        have := paginateGo_length_ge rest [contMarker, line]
          (contMarker.length + line.length + 1) (out ++ [joinNL chunk]) (by simp)
        simp only [List.length_append, List.length_cons, List.length_nil] at this
        omega
      · rw [if_neg hflush]
        refine ih (chunk ++ [line]) _ out (by simp) ?_ (by omega)
        simp only [sumLen] at hover
        omega

-- -------------- C4 --------------

/-- C4 (amended): provided every line fits in a chunk behind the
continuation marker (line length + marker length + 1 ≤ 3500), a line list
whose newline-joined length exceeds the 3500-character budget is emitted as
more than one chunk, every chunk is at most 3500 characters, and every chunk
after the first begins with the continuation marker. -/
theorem pagination_bounds (header : String) (lines : List String)
    (hh : header.length ≤ chunkBudget)
    (hl : ∀ l ∈ lines, l.length + contMarker.length + 1 ≤ chunkBudget)
    (hover : chunkBudget < (joinNL lines).length) :
    1 < (paginate header lines).length
    ∧ (∀ c ∈ paginate header lines, c.length ≤ chunkBudget)
    ∧ (∀ c ∈ (paginate header lines).drop 1, ∃ r, c = contMarker ++ r) := by
  have hjs : (joinNL lines).length ≤ sumLen lines := joinNL_le_sumLen lines
  refine ⟨?_, ?_, ?_⟩
  · have := paginateGo_two lines [header] header.length [] (by simp) (by omega) hh
    simpa [paginate] using this
  · exact paginateGo_length_le lines [header] header.length [] (by simp) (by simp)
      (by simp [joinNL]) hh hl
  · exact paginateGo_marker lines [header] header.length [] (by simp) (by simp)
      (by simp)

/-- Length of a replicated-character string, computed without unfolding the
replication. -/
theorem length_mk_replicate (n : Nat) (c : Char) :
    (String.mk (List.replicate n c)).length = n := by
  show (List.replicate n c).length = n
  simp

/-- A 1800-character line used to exercise the paginator. -/
def wLine : String := String.mk (List.replicate 1800 'a')

/-- Witness for C4: two 1800-character lines (joined length 3601 > 3500)
produce more than one chunk. -/
theorem pagination_bounds_witness :
    1 < (paginate (inactiveHeader 30) [wLine, wLine]).length :=
  (pagination_bounds (inactiveHeader 30) [wLine, wLine] (by decide)
    (by
      intro l hl'
      have hw : wLine.length = 1800 := length_mk_replicate 1800 'a'
      have hm : contMarker.length = 8 := rfl
      have hlw : l = wLine := by
        rcases List.mem_cons.mp hl' with h | h
        · exact h
        · simpa using h
      rw [hlw, hw, hm]
      decide)
    (by
      have hw : wLine.length = 1800 := length_mk_replicate 1800 'a'
      rw [joinNL_pair_length, hw]
      decide)).1

/-- A 3480-character display name, as `get_member` could return. -/
def bigName : String := String.mk (List.replicate 3480 'a')

/-- The 3501-character report line built from that name. -/
def bigLine : String := mkLine bigName "never"

/-- C4 counterexample: a single report line longer than the budget (3501
characters) makes the input's concatenated length exceed 3500, yet the
paginator emits a chunk of 3510 characters — more than the budget — so the
claim's "every emitted chunk is at most 3500 characters" is false as
stated. -/
theorem pagination_oversize_cex :
    chunkBudget < (joinNL [bigLine]).length ∧
    ¬ (∀ c ∈ paginate (inactiveHeader 30) [bigLine], c.length ≤ chunkBudget) := by
  have hname : bigName.length = 3480 := length_mk_replicate 3480 'a'
  have hL : bigLine.length = 3501 := by
    have h2 : ("• " : String).length = 2 := rfl
    have h14 : (" — last seen: " : String).length = 14 := rfl
    have h5 : ("never" : String).length = 5 := rfl
    rw [show bigLine = "• " ++ bigName ++ " — last seen: " ++ "never" from rfl]
    simp only [String.length_append, h2, h14, h5, hname]
  have hhdr : (inactiveHeader 30).length = 41 := by decide
  have hstep : paginate (inactiveHeader 30) [bigLine] =
      [inactiveHeader 30, joinNL [contMarker, bigLine]] := by
    unfold paginate
    rw [paginateGo_cons, if_pos (by rw [hhdr, hL]; decide), paginateGo_nil,
      if_neg (by simp)]
    rfl
  constructor
  · show chunkBudget < (joinNL [bigLine]).length
    have : joinNL [bigLine] = bigLine := rfl
    rw [this, hL]
    decide
  · intro h
    have hmem : joinNL [contMarker, bigLine] ∈ paginate (inactiveHeader 30) [bigLine] := by
      rw [hstep]
      simp
    have := h _ hmem
    rw [joinNL_pair_length, hL] at this
    have hm : contMarker.length = 8 := rfl
    rw [hm] at this
    simp [chunkBudget] at this

-- -------------- C5 --------------

/-- C5: the CSV export is the header row `user_id,last_interaction_iso`
followed by exactly one row per distinct touched user id (the dict keys are
unique), each row carrying the user id and a UTC ISO-8601 timestamp ending
in the `+00:00` offset; the header is present even for an empty ledger, and
every ledger entry yields a row — no inactivity filtering. -/
theorem csv_export_shape (st : BotState) (hnd : (lsKeys st.lastSeen).Nodup) :
    (csvExport st).head? = some csvHeader
    ∧ (csvExport st).length = 1 + ((lsKeys st.lastSeen).dedup).length
    ∧ (∀ p ∈ st.lastSeen, csvRow p ∈ csvExport st)
    ∧ (∀ p ∈ st.lastSeen, ∃ pre, csvRow p = toString p.1 ++ "," ++ (pre ++ "+00:00"))
    ∧ (∀ gs, csvExport ⟨[], gs⟩ = [csvHeader]) := by
  refine ⟨rfl, ?_, ?_, ?_, fun gs => rfl⟩
  · rw [List.dedup_eq_self.mpr hnd]
    simp [csvExport, lsKeys]
    omega
  · intro p hp
    exact List.mem_cons_of_mem _ (List.mem_map_of_mem _ hp)
  · intro p hp
    exact ⟨isoBody p.2, rfl⟩

/-- Witness for C5: a two-user ledger exports the header plus two rows. -/
theorem csv_export_shape_witness :
    (csvExport ⟨[(1, 100), (2, 200)], []⟩).head? = some csvHeader
    ∧ (csvExport ⟨[(1, 100), (2, 200)], []⟩).length =
        1 + ((lsKeys [(1, 100), (2, 200)]).dedup).length :=
  ⟨(csv_export_shape ⟨[(1, 100), (2, 200)], []⟩ (by decide)).1,
   (csv_export_shape ⟨[(1, 100), (2, 200)], []⟩ (by decide)).2.1⟩

-- -------------- C6 --------------

theorem lookup_applyTouches (evs : List (Nat × Int)) (u : Nat) :
    ∀ ls : List (Nat × Int), lookupLS (applyTouches ls evs) u =
      evs.foldl (fun acc e => if e.1 = u then some e.2 else acc) (lookupLS ls u) := by
  induction evs with
  | nil => intro ls; rfl
  | cons e rest ih =>
      intro ls
      show lookupLS (applyTouches (dictInsert e.1 e.2 ls) rest) u = _
      rw [ih (dictInsert e.1 e.2 ls), lookup_dictInsert, List.foldl_cons]

theorem foldl_upd_eq (u : Nat) (evs : List (Nat × Int)) :
    ∀ init : Option Int,
      evs.foldl (fun acc e => if e.1 = u then some e.2 else acc) init =
        match lastTouch evs u with
        | some t => some t
        | none => init := by
  induction evs with
  | nil => intro init; rfl
  | cons e rest ih =>
      intro init
      rw [List.foldl_cons, ih]
      rw [show lastTouch (e :: rest) u =
        (match lastTouch rest u with
         | some t => some t
         | none => if e.1 = u then some e.2 else none) from rfl]
      cases hlt : lastTouch rest u <;> by_cases h : e.1 = u <;> simp [h]

theorem lastTouch_append (l₁ l₂ : List (Nat × Int)) (u : Nat) :
    lastTouch (l₁ ++ l₂) u =
      match lastTouch l₂ u with
      | some t => some t
      | none => lastTouch l₁ u := by
  induction l₁ with
  | nil =>
      cases hlt : lastTouch l₂ u <;> simp [hlt, lastTouch]
  | cons e rest ih =>
      rw [show ((e :: rest) ++ l₂) = e :: (rest ++ l₂) from rfl]
      rw [show lastTouch (e :: (rest ++ l₂)) u =
        (match lastTouch (rest ++ l₂) u with
         | some t => some t
         | none => if e.1 = u then some e.2 else none) from rfl]
      rw [ih]
      rw [show lastTouch (e :: rest) u =
        (match lastTouch rest u with
         | some t => some t
         | none => if e.1 = u then some e.2 else none) from rfl]
      cases hlt : lastTouch l₂ u <;> rfl

theorem lastTouch_mem {evs : List (Nat × Int)} {u : Nat} {t : Int}
    (h : lastTouch evs u = some t) : (u, t) ∈ evs := by
  induction evs with
  | nil => simp [lastTouch] at h
  | cons e rest ih =>
      rw [show lastTouch (e :: rest) u =
        (match lastTouch rest u with
         | some t' => some t'
         | none => if e.1 = u then some e.2 else none) from rfl] at h
      cases hlt : lastTouch rest u with
      | some t' =>
          rw [hlt] at h
          simp at h
          subst h
          exact List.mem_cons_of_mem _ (ih hlt)
      | none =>
          rw [hlt] at h
          by_cases he : e.1 = u
          · rw [if_pos he] at h
            obtain rfl : e.2 = t := by simpa using h
            subst he
            exact List.mem_cons_self e rest
          · rw [if_neg he] at h
            simp at h

/-- C6: after any sequence of touch calls, the recorded `last_seen` value of
a user is exactly the timestamp of their most recent touch; and when the
touch timestamps are chronological (the wall clock never runs backwards),
the per-user value is monotonically non-decreasing across every prefix of
the sequence — each touch overwrites with the current time, with no
backdating. -/
theorem touch_overwrite_monotone (evs : List (Nat × Int)) (u : Nat) :
    (∀ (ls : List (Nat × Int)) (t : Int), lastTouch evs u = some t →
        lookupLS (applyTouches ls evs) u = some t)
    ∧ (List.Pairwise (fun a b => a.2 ≤ b.2) evs →
        ∀ l₁ l₂ a b, evs = l₁ ++ l₂ →
          lookupLS (applyTouches [] l₁) u = some a →
          lookupLS (applyTouches [] evs) u = some b → a ≤ b) := by
  constructor
  · intro ls t hlast
    rw [lookup_applyTouches, foldl_upd_eq, hlast]
  · intro hchrono l₁ l₂ a b heq ha hb
    have ha' : lastTouch l₁ u = some a := by
      rw [lookup_applyTouches, foldl_upd_eq] at ha
      revert ha
      cases hlt : lastTouch l₁ u <;> simp [lookupLS]
    have hb' : lastTouch evs u = some b := by
      rw [lookup_applyTouches, foldl_upd_eq] at hb
      revert hb
      cases hlt : lastTouch evs u <;> simp [lookupLS]
    rw [heq, lastTouch_append] at hb'
    cases hlt : lastTouch l₂ u with
    | none =>
        rw [hlt] at hb'
        simp at hb'
        rw [ha'] at hb'
        simp at hb'
        omega
    | some t =>
        rw [hlt] at hb'
        simp at hb'
        have hmem1 : (u, a) ∈ l₁ := lastTouch_mem ha'
        have hmem2 : (u, t) ∈ l₂ := lastTouch_mem hlt
        have hle := (List.pairwise_append.mp (heq ▸ hchrono)).2.2 (u, a) hmem1 (u, t) hmem2
        simp at hle
        omega

/-- Witness for C6: touching user 1 at time 10 and again at time 20 leaves
`last_seen` at 20, and the prefix value 10 is bounded by the final 20. -/
theorem touch_overwrite_monotone_witness :
    lookupLS (applyTouches [] [(1, 10), (1, 20)]) 1 = some 20 ∧ (10 : Int) ≤ 20 :=
  ⟨(touch_overwrite_monotone [(1, 10), (1, 20)] 1).1 [] 20 (by decide),
   (touch_overwrite_monotone [(1, 10), (1, 20)] 1).2 (by decide)
     [(1, 10)] [(1, 20)] 10 20 rfl (by decide) (by decide)⟩

-- -------------- C7 --------------

/-- C7 (amended): a message from a non-group chat (or with no chat) leaves
the whole state unchanged; for any message in a group/supergroup the chat id
is added to the tracked-group set regardless of the sender, and the sender
is touched exactly when present and human — so a bot-sender message in a
group leaves the last-seen mapping unchanged but still tracks the group. -/
theorem message_eligibility (ev : MsgEvent) (now : Int) (st : BotState) :
    (ev.chat = none → onMessage ev now st = st)
    ∧ (∀ chat, ev.chat = some chat → isGroupType chat.type = false →
        onMessage ev now st = st)
    ∧ (∀ chat, ev.chat = some chat → isGroupType chat.type = true →
        (onMessage ev now st).groups = setAdd chat.id st.groups
        ∧ (msgSenderHuman ev = none → (onMessage ev now st).lastSeen = st.lastSeen)
        ∧ (∀ u, msgSenderHuman ev = some u →
            (onMessage ev now st).lastSeen = dictInsert u.id now st.lastSeen)) := by
  refine ⟨fun hc => by simp [onMessage, hc], fun chat hc hg => by simp [onMessage, hc, hg],
    fun chat hc hg => ⟨?_, ?_, ?_⟩⟩
  · cases hf : ev.fromUser with
    | none => simp [onMessage, hc, hg, hf]
    | some u =>
        cases hbot : u.isBot <;> simp [onMessage, hc, hg, hf, hbot, touchL]
  · intro hnone
    cases hf : ev.fromUser with
    | none => simp [onMessage, hc, hg, hf]
    | some u =>
        cases hbot : u.isBot with
        | true => simp [onMessage, hc, hg, hf, hbot]
        | false => simp [msgSenderHuman, hf, hbot] at hnone
  · intro u hsome
    cases hf : ev.fromUser with
    | none => simp [msgSenderHuman, hf] at hsome
    | some v =>
        cases hbot : v.isBot with
        | true => simp [msgSenderHuman, hf, hbot] at hsome
        | false =>
            simp only [msgSenderHuman, hf, hbot, Bool.false_eq_true, if_false,
              Option.some.injEq] at hsome
            subst hsome
            simp [onMessage, hc, hg, hf, hbot, touchL]

/-- Witness for C7: a human message in a supergroup tracks the group and
touches the sender. -/
theorem message_eligibility_witness :
    (onMessage ⟨some ⟨-1, ChatType.supergroup⟩, some ⟨7, false, none, "Ann"⟩⟩ 50
        ⟨[], []⟩).groups = setAdd (-1) []
    ∧ (onMessage ⟨some ⟨-1, ChatType.supergroup⟩, some ⟨7, false, none, "Ann"⟩⟩ 50
        ⟨[], []⟩).lastSeen = dictInsert 7 50 [] :=
  ⟨((message_eligibility ⟨some ⟨-1, ChatType.supergroup⟩, some ⟨7, false, none, "Ann"⟩⟩
      50 ⟨[], []⟩).2.2 ⟨-1, ChatType.supergroup⟩ rfl rfl).1,
   ((message_eligibility ⟨some ⟨-1, ChatType.supergroup⟩, some ⟨7, false, none, "Ann"⟩⟩
      50 ⟨[], []⟩).2.2 ⟨-1, ChatType.supergroup⟩ rfl rfl).2.2
     ⟨7, false, none, "Ann"⟩ rfl⟩

/-- C7 counterexample: a message sent by a BOT in a previously untracked
supergroup changes the tracked-group set (the group is added before the
bot-sender check), contradicting the claim that an ineligible (bot-sender)
message leaves the tracked-group set unchanged. -/
theorem message_bot_tracks_group_cex :
    (onMessage ⟨some ⟨-1, ChatType.supergroup⟩, some ⟨99, true, none, "Bot"⟩⟩ 5
        ⟨[], []⟩).groups = [(-1 : Int)]
    ∧ (onMessage ⟨some ⟨-1, ChatType.supergroup⟩, some ⟨99, true, none, "Bot"⟩⟩ 5
        ⟨[], []⟩).lastSeen = []
    ∧ ([(-1 : Int)] : List Int) ≠ ([] : List Int) :=
  ⟨rfl, rfl, by decide⟩

-- -------------- C8 --------------

/-- C8 (amended): for every positive numeric user id given to `/lastseen`
that has never been touched, the reply is the no-recorded-activity message.
(The id 0 is excluded: it is falsy in the `if not user_id` check and gets
the could-not-resolve reply instead.) -/
theorem lastseen_untouched_numeric (memberLookup : Nat → Option TgUser) (tzOff : Int)
    (s : String) (rest : List String) (st : BotState) (n : Nat)
    (hdig : isDigitStr (lstripAt s) = true)
    (hn : digitsToNat (lstripAt s).data = n)
    (hpos : 0 < n)
    (habs : lookupLS st.lastSeen n = none) :
    cmdLastseen memberLookup tzOff (s :: rest) st = noActivityMsg := by
  unfold cmdLastseen
  simp only [hdig, if_true, hn, habs]
  rw [if_neg (by omega : ¬ n = 0)]

/-- Witness for C8: `/lastseen 12345` on an empty ledger replies with the
no-recorded-activity message. -/
theorem lastseen_untouched_numeric_witness :
    cmdLastseen (fun _ => none) 0 ["12345"] ⟨[], []⟩ = noActivityMsg :=
  lastseen_untouched_numeric (fun _ => none) 0 "12345" [] ⟨[], []⟩ 12345
    (by decide) (by decide) (by decide) rfl

/-- C8 counterexample: the numeric id 0, never touched, gets the
could-not-resolve reply — not the no-recorded-activity reply — because
Python's `if not user_id` treats 0 as falsy. -/
theorem lastseen_zero_id_cex :
    cmdLastseen (fun _ => none) 0 ["0"] ⟨[], []⟩ = resolveFailMsg
    ∧ resolveFailMsg ≠ noActivityMsg :=
  ⟨rfl, by decide⟩

-- -------------- C10 --------------

theorem padS_length (w : Nat) (s : String) :
    (padS w s).length = (w - s.length) + s.length := by
  unfold padS
  rw [String.length_append]
  have hrep : (String.mk (List.replicate (w - s.length) '0')).length = w - s.length := by
    show (List.replicate (w - s.length) '0').length = w - s.length
    simp
  rw [hrep]

theorem pad2_length (n : Nat) : 2 ≤ (pad2 n).length := by
  unfold pad2
  rw [padS_length]
  omega

theorem padI4_length (y : Int) : 4 ≤ (padI4 y).length := by
  unfold padI4
  rw [padS_length]
  omega

theorem dateFields_length (sep : String) (y : Int) (mo d hh mi ss : Nat) :
    18 + sep.length ≤ (dateFields sep y mo d hh mi ss).length := by
  unfold dateFields
  simp only [String.length_append]
  have h1 := padI4_length y
  have h2 := pad2_length mo
  have h3 := pad2_length d
  have h4 := pad2_length hh
  have h5 := pad2_length mi
  have h6 := pad2_length ss
  have hd : ("-" : String).length = 1 := rfl
  have hcol : (":" : String).length = 1 := rfl
  rw [hd, hcol]
  omega

theorem humanDt_ne_never (tzOff ts : Int) : humanDt tzOff ts ≠ "never" := by
  intro h
  have h19 : 19 ≤ (humanDt tzOff ts).length := by
    unfold humanDt dateTimeStr
    have := dateFields_length " "
      (civilFromDays ((ts + tzOff).fdiv 86400)).1
      (civilFromDays ((ts + tzOff).fdiv 86400)).2.1
      (civilFromDays ((ts + tzOff).fdiv 86400)).2.2
      (((ts + tzOff) - (ts + tzOff).fdiv 86400 * 86400).toNat / 3600)
      (((ts + tzOff) - (ts + tzOff).fdiv 86400 * 86400).toNat % 3600 / 60)
      (((ts + tzOff) - (ts + tzOff).fdiv 86400 * 86400).toNat % 60)
    have hsp : (" " : String).length = 1 := rfl
    rw [hsp] at this
    exact this
  rw [h] at h19
  have : ("never" : String).length = 5 := rfl
  omega

/-- All values stored in a last-seen mapping are strictly positive. -/
def posVals (ls : List (Nat × Int)) : Prop :=
  ∀ u t, lookupLS ls u = some t → 0 < t

theorem posVals_dictInsert {ls : List (Nat × Int)} (h : posVals ls) {k : Nat} {v : Int}
    (hv : 0 < v) : posVals (dictInsert k v ls) := by
  intro u t hl
  rw [lookup_dictInsert] at hl
  by_cases hk : k = u
  · rw [if_pos hk] at hl
    cases hl
    exact hv
  · rw [if_neg hk] at hl
    exact h u t hl

theorem stepEv_posVals (st : BotState) (te : Int × Ev) (h : posVals st.lastSeen)
    (ht : 0 < te.1) : posVals (stepEv st te).lastSeen := by
  obtain ⟨now, ev⟩ := te
  have hnow : (0 : Int) < now := ht
  cases ev with
  | message chat fu =>
      show posVals (onMessage ⟨chat, fu⟩ now st).lastSeen
      cases chat with
      | none => exact h
      | some c =>
          by_cases hg : isGroupType c.type = true
          · cases fu with
            | none => simpa [onMessage, hg] using h
            | some u =>
                cases hbot : u.isBot with
                | false =>
                    have hd := @posVals_dictInsert st.lastSeen h u.id now hnow
                    simpa [onMessage, hg, hbot, touchL] using hd
                | true => simpa [onMessage, hg, hbot] using h
          · simpa [onMessage, hg] using h
  | pollAnswer u =>
      show posVals (onPollAnswer u now st).lastSeen
      cases u with
      | none => exact h
      | some v =>
          cases hbot : v.isBot with
          | false =>
              have hd := @posVals_dictInsert st.lastSeen h v.id now hnow
              simpa [onPollAnswer, hbot, touchL] using hd
          | true => simpa [onPollAnswer, hbot] using h
  | chatMember cid nu status =>
      show posVals (onChatMember cid nu status now st).lastSeen
      cases nu with
      | none => simpa [onChatMember] using h
      | some v =>
          by_cases hcond :
              (!v.isBot && (status == "member" || status == "administrator")) = true
          · have hd := @posVals_dictInsert st.lastSeen h v.id now hnow
            simpa [onChatMember, hcond, touchL] using hd
          · simpa [onChatMember, hcond] using h
  | reaction u =>
      show posVals (onReaction u now st).lastSeen
      cases u with
      | none => exact h
      | some v =>
          cases hbot : v.isBot with
          | false =>
              have hd := @posVals_dictInsert st.lastSeen h v.id now hnow
              simpa [onReaction, hbot, touchL] using hd
          | true => simpa [onReaction, hbot] using h
  | inactiveCmd args chat admins ml =>
      show posVals (cmdInactive ⟨now, 0, chat, admins, ml⟩ args st).2.lastSeen
      rw [cmdInactive_lastSeen_unchanged]
      exact h

theorem applyEvents_posVals (evs : List (Int × Ev)) :
    ∀ st : BotState, posVals st.lastSeen → (∀ te ∈ evs, 0 < te.1) →
      posVals (applyEvents st evs).lastSeen := by
  induction evs with
  | nil => intro st h _; exact h
  | cons te rest ih =>
      intro st h hpos
      show posVals (applyEvents (stepEv st te) rest).lastSeen
      exact ih _ (stepEv_posVals st te h (hpos te (List.mem_cons_self _ _)))
        (fun e he => hpos e (List.mem_cons_of_mem _ he))

/-- C10: along any event history whose wall-clock timestamps are positive
(as `time.time()` always is), every value stored in the last-seen mapping is
strictly positive, so the query's sentinel 0.0 for "never recorded" cannot
collide with a real timestamp, and the rendered `seen_str` is "never"
exactly when the user has no record. -/
theorem sentinel_never_collides (evs : List (Int × Ev)) (tzOff : Int)
    (hpos : ∀ te ∈ evs, 0 < te.1) :
    (∀ u t, lookupLS (applyEvents initialState evs).lastSeen u = some t → 0 < t)
    ∧ (∀ u, seenStrOf tzOff (tsOf (applyEvents initialState evs).lastSeen u) = "never"
        ↔ lookupLS (applyEvents initialState evs).lastSeen u = none) := by
  have hinv : posVals (applyEvents initialState evs).lastSeen :=
    applyEvents_posVals evs initialState (fun u t hl => by simp [lookupLS] at hl) hpos
  refine ⟨hinv, fun u => ?_⟩
  cases hl : lookupLS (applyEvents initialState evs).lastSeen u with
  | none =>
      unfold tsOf
      rw [hl]
      simp [seenStrOf]
  | some t =>
      have htpos : 0 < t := hinv u t hl
      unfold tsOf
      rw [hl]
      simp only [Option.getD_some]
      rw [seenStrOf, if_neg (by omega : ¬ t = 0)]
      constructor
      · intro hcontra
        exact absurd hcontra (humanDt_ne_never tzOff t)
      · intro hcontra
        simp at hcontra

/-- Witness for C10: after a single poll vote at time 1000, an untouched
user id renders as "never" exactly because it has no record. -/
theorem sentinel_never_collides_witness :
    seenStrOf 0
        (tsOf (applyEvents initialState
          [(1000, Ev.pollAnswer (some ⟨7, false, none, "Ann"⟩))]).lastSeen 9) = "never"
      ↔ lookupLS (applyEvents initialState
          [(1000, Ev.pollAnswer (some ⟨7, false, none, "Ann"⟩))]).lastSeen 9 = none :=
  (sentinel_never_collides [(1000, Ev.pollAnswer (some ⟨7, false, none, "Ann"⟩))] 0
    (by decide)).2 9
